import Mathlib

/-!
A verification development for `src/SocialNetwork.py`, a graph-based social
network model built on a networkx `MultiGraph`.

The embedding below translates the source into Lean:

* a graph is a node list plus an edge list (a networkx `MultiGraph` keeps
  every supplied edge, parallel edges and self-loops included, and registers
  any edge endpoint as a node);
* `populate_graph` embeds `SocialNetwork.populate_graph` composed with the
  constructor's bookkeeping: nodes come from `add_nodes_from(people)` followed
  by `add_edges_from(connections)` (which adds unseen endpoints), edges are
  the supplied connection list unchanged;
* `create_connections_full` / `create_connections_random` embed the two
  connection generators; the random source is an explicit stream of coin
  flips (`random.randint(0, 1)` outcomes, `true` meaning the flip succeeded)
  consumed left to right, and the Python identity test `i is j` on person
  identifiers is rendered as equality;
* `Graph.dist` embeds the semantics of
  `networkx.all_pairs_shortest_path_length`: the least `n` with `t` in the
  `n`-step ball around `s`, searched up to the node count (a shortest path in
  a graph whose edge endpoints are nodes is shorter than the node count), and
  `none` when `t` is unreachable — networkx omits unreachable targets from
  the per-source dictionary;
* error outcomes are explicit: on an empty graph `get_most_popular` and
  `get_least_popular` subscript `None` (a Python `TypeError`) and
  `get_average` divides by zero (`ZeroDivisionError`). The spec's
  `EmptyGraphError` appears as a constructor only so that spec-level
  statements about it can be expressed; the source never defines or raises
  it.
-/

/-- Python error outcomes of the analytics. `typeError` is the built-in
`TypeError` raised by subscripting `None`, `zeroDivisionError` the built-in
raised by `summation/count` with `count = 0`; `emptyGraphError` is the error
kind named by the spec, which the source never defines. -/
inductive PyError where
  | typeError
  | zeroDivisionError
  | emptyGraphError
  deriving DecidableEq

instance {ε β : Type} [DecidableEq ε] [DecidableEq β] : DecidableEq (Except ε β) :=
  fun a b =>
    match a, b with
    | Except.error x, Except.error y => decidable_of_iff (x = y) (by simp)
    | Except.error _, Except.ok _ => isFalse (by simp)
    | Except.ok _, Except.error _ => isFalse (by simp)
    | Except.ok x, Except.ok y => decidable_of_iff (x = y) (by simp)

/-- The state of a networkx `MultiGraph`: nodes in insertion order and the
multiset of stored edges (kept as the list of supplied pairs; a `MultiGraph`
stores parallel edges and self-loops verbatim). -/
structure Graph (β : Type) where
  nodes : List β
  edges : List (β × β)

variable {α : Type} [DecidableEq α]

/-- Governor string accepted by `get_average`. -/
def govFloor : String := "floor"

/-- Governor string accepted by `get_average`. -/
def govCeiling : String := "ceiling"

/-- Governor string accepted by `get_average`. -/
def govCast : String := "cast"

/-- The sentinel returned by `get_more_than_four` when nobody qualifies. -/
def noOneMsg : String := "No one has more than four friends"

/-- `networkx.Graph.add_node`: append a node unless it is already present. -/
def insertNode (l : List α) (a : α) : List α :=
  if a ∈ l then l else l ++ [a]

/-- `SocialNetwork.populate_graph`: `add_nodes_from(self.people)` then
`add_edges_from(self.connections)`. Nodes are the people followed by any
edge endpoint not yet present, in first-appearance order; the edge list is
the connection list unchanged (no self-loop filtering happens here). -/
def populate_graph (people : List α) (connections : List (α × α)) : Graph α :=
  { nodes := (people ++ connections.flatMap (fun c => [c.1, c.2])).foldl insertNode [],
    edges := connections }

/-- `SocialNetwork.create_connections_full`: for every `i` then every `j`
in list order, skipping `i is j`, emit `(i, j)`. -/
def create_connections_full (people : List α) : List (α × α) :=
  people.flatMap (fun i => (people.filter (fun j => decide (¬ i = j))).map (fun j => (i, j)))

/-- Inner loop of `SocialNetwork.create_connections_random` for one person
`i`: scan candidates `j` in list order, skipping `i is j`; flip a coin per
candidate (consuming index `k` of the stream); on the first successful flip
emit `(i, j)` and stop (the `break` is only reached on the success branch,
since the failure branch executes `continue`). Returns the emitted
connection, if any, and the next unused coin index. -/
def scan_partners (i : α) : List α → (Nat → Bool) → Nat → Option (α × α) × Nat
  | [], _, k => (none, k)
  | j :: js, coins, k =>
    if i = j then scan_partners i js coins k
    else if coins k then (some (i, j), k + 1)
    else scan_partners i js coins (k + 1)

/-- Outer loop of `SocialNetwork.create_connections_random`: run
`scan_partners` for each person in order, threading the coin stream. -/
def create_connections_random_from : List α → List α → (Nat → Bool) → Nat → List (α × α)
  | [], _, _, _ => []
  | i :: rest, all, coins, k =>
    match scan_partners i all coins k with
    | (some c, kNext) => c :: create_connections_random_from rest all coins kNext
    | (none, kNext) => create_connections_random_from rest all coins kNext

/-- `SocialNetwork.create_connections_random` with the hidden global random
source made explicit as a stream of fair-coin outcomes. -/
def create_connections_random (people : List α) (coins : Nat → Bool) : List (α × α) :=
  create_connections_random_from people people coins 0

/-- networkx `MultiGraph.degree` of one node: the number of edge endpoints
equal to it; a parallel edge counts each time and a self-loop counts twice. -/
def Graph.degree (g : Graph α) (p : α) : Nat :=
  (g.edges.map (fun e => (if e.1 = p then 1 else 0) + (if e.2 = p then 1 else 0))).sum

/-- The iterable `self.graph.degree`: `(node, degree)` pairs in node order. -/
def Graph.degreeList (g : Graph α) : List (α × Nat) :=
  g.nodes.map (fun p => (p, g.degree p))

/-- One step of the placeholder scan shared by `get_most_popular` and
`get_least_popular`: the first element replaces the `None` placeholder;
afterwards the current element replaces the placeholder when `better`
relates their degrees. -/
def selStep (better : Nat → Nat → Bool) (acc : Option (α × Nat)) (i : α × Nat) :
    Option (α × Nat) :=
  match acc with
  | none => some i
  | some person => if better i.2 person.2 then some i else some person

/-- `SocialNetwork.get_most_popular`: scan `graph.degree` for a node of
maximal degree (`if i[1] > person[1]`), then collect everyone whose degree
equals the placeholder's. On an empty graph the placeholder stays `None` and
`populars.add(person[0])` raises `TypeError`. -/
def Graph.get_most_popular (g : Graph α) : Except PyError (Finset α) :=
  match g.degreeList.foldl (selStep (fun a b => decide (a > b))) none with
  | none => Except.error PyError.typeError
  | some person =>
    Except.ok (insert person.1
      (((g.degreeList.filter (fun i => decide (i.2 = person.2))).map Prod.fst).toFinset))

/-- `SocialNetwork.get_least_popular`: as `get_most_popular` with the
comparison `if i[1] < person[1]`. -/
def Graph.get_least_popular (g : Graph α) : Except PyError (Finset α) :=
  match g.degreeList.foldl (selStep (fun a b => decide (a < b))) none with
  | none => Except.error PyError.typeError
  | some person =>
    Except.ok (insert person.1
      (((g.degreeList.filter (fun i => decide (i.2 = person.2))).map Prod.fst).toFinset))

/-- `SocialNetwork.get_average`: sum the degrees and count the nodes, then
divide under the requested rounding governor. Every branch divides
`summation/count`, so an empty graph raises `ZeroDivisionError` whatever the
governor. Python's `int()` governor truncates toward zero; the mean of
nonnegative degrees is nonnegative, where truncation coincides with floor. -/
def Graph.get_average (g : Graph α) (gov : Option String) : Except PyError ℚ :=
  if g.degreeList.length = 0 then Except.error PyError.zeroDivisionError
  else if gov = some govFloor then
    Except.ok ((⌊((g.degreeList.map Prod.snd).sum : ℚ) / (g.degreeList.length : ℚ)⌋ : ℤ) : ℚ)
  else if gov = some govCeiling then
    Except.ok ((⌈((g.degreeList.map Prod.snd).sum : ℚ) / (g.degreeList.length : ℚ)⌉ : ℤ) : ℚ)
  else if gov = some govCast then
    Except.ok ((⌊((g.degreeList.map Prod.snd).sum : ℚ) / (g.degreeList.length : ℚ)⌋ : ℤ) : ℚ)
  else Except.ok (((g.degreeList.map Prod.snd).sum : ℚ) / (g.degreeList.length : ℚ))

/-- `SocialNetwork.get_more_than_four`: collect the nodes of degree strictly
above 4; when the collected set is empty return the sentinel string instead
of the set. -/
def Graph.get_more_than_four (g : Graph α) : Finset α ⊕ String :=
  let populars := ((g.degreeList.filter (fun i => decide (i.2 > 4))).map Prod.fst).toFinset
  if populars.card = 0 then Sum.inr noOneMsg else Sum.inl populars

/-- The neighbours of `p`: the other endpoint of every edge incident to `p`
(for a self-loop, `p` itself). This is the adjacency networkx derives from
the stored edges of an undirected multigraph. -/
def Graph.nbrs (g : Graph α) (p : α) : Finset α :=
  (g.edges.filterMap
    (fun e => if e.1 = p then some e.2 else if e.2 = p then some e.1 else none)).toFinset

/-- The breadth-first ball: the set of vertices reachable from `s` in at
most `n` edge steps. -/
def Graph.ball (g : Graph α) (s : α) : Nat → Finset α
  | 0 => {s}
  | n + 1 => g.ball s n ∪ (g.ball s n).biUnion (fun p => g.nbrs p)

/-- Shortest-path length as computed by
`networkx.all_pairs_shortest_path_length` for one source/target pair: the
least number of edge steps from `s` to `t`, `none` when `t` is unreachable
(networkx omits such targets from the per-source dictionary). The search is
bounded by the node count, which covers every shortest path in a graph whose
edge endpoints are nodes. -/
def Graph.dist (g : Graph α) (s t : α) : Option Nat :=
  (List.range (g.nodes.length + 1)).find? (fun n => decide (t ∈ g.ball s n))

/-- `SocialNetwork.get_adjacency_with_separation_degree`: for each node `p`
in node order, the set of nodes whose shortest-path distance from `p` is
exactly `degree` (the source reads these off the per-source dictionary of
`all_pairs_shortest_path_length`, whose entries are the reachable nodes). -/
def Graph.get_adjacency_with_separation_degree (g : Graph α) (degree : Nat) :
    List (α × Finset α) :=
  g.nodes.map
    (fun p => (p, (g.nodes.filter (fun q => decide (g.dist p q = some degree))).toFinset))

/-- `SocialNetwork.get_friends`: adjacency at separation degree 1. -/
def Graph.get_friends (g : Graph α) : List (α × Finset α) :=
  g.get_adjacency_with_separation_degree 1

/-- `SocialNetwork.get_friends_of_friends`: adjacency at separation degree 2. -/
def Graph.get_friends_of_friends (g : Graph α) : List (α × Finset α) :=
  g.get_adjacency_with_separation_degree 2

/-- The three-person scenario of the spec: the path `A - B - C`. -/
def exampleGraph : Graph String :=
  populate_graph ["A", "B", "C"] [("A", "B"), ("B", "C")]

/-- Membership in `degreeList` pairs each node with its degree. -/
lemma mem_degreeList {g : Graph α} {i : α × Nat} :
    i ∈ g.degreeList ↔ i.1 ∈ g.nodes ∧ i.2 = g.degree i.1 := by
  constructor
  · intro hi
    obtain ⟨q, hq, hEq⟩ := List.mem_map.mp hi
    cases hEq
    exact ⟨hq, rfl⟩
  · rintro ⟨h1, h2⟩
    exact List.mem_map.mpr ⟨i.1, h1, by rw [Prod.ext_iff]; exact ⟨rfl, h2.symm⟩⟩

/-- The placeholder scan started from `some p` ends at an element that
`R`-dominates the start and every scanned element, where `R` is any
transitive relation the `better` test decides against. -/
lemma foldl_selStep_from_some (better : Nat → Nat → Bool) (R : Nat → Nat → Prop)
    (htrans : ∀ x y z, R x y → R y z → R x z)
    (hT : ∀ x y, better x y = true → R y x)
    (hF : ∀ x y, better x y = false → R x y) :
    ∀ (l : List (α × Nat)) (p : α × Nat),
      ∃ m, l.foldl (selStep better) (some p) = some m ∧
        (m = p ∨ m ∈ l) ∧ R p.2 m.2 ∧ ∀ i ∈ l, R i.2 m.2 := by
  have hrefl : ∀ x, R x x := by
    intro x
    cases hb : better x x with
    | true => exact hT x x hb
    | false => exact hF x x hb
  intro l
  induction l with
  | nil =>
    intro p
    exact ⟨p, rfl, Or.inl rfl, hrefl p.2, by simp⟩
  | cons a l ih =>
    intro p
    rw [List.foldl_cons]
    by_cases hb : better a.2 p.2 = true
    · have hsel : selStep better (some p) a = some a := by simp [selStep, hb]
      rw [hsel]
      obtain ⟨m, hm, hmem, ham, hall⟩ := ih a
      refine ⟨m, hm, ?_, htrans _ _ _ (hT _ _ hb) ham, ?_⟩
      · rcases hmem with h | h
        · exact Or.inr (h ▸ List.mem_cons_self a l)
        · exact Or.inr (List.mem_cons_of_mem a h)
      · intro i hi
        rcases List.mem_cons.mp hi with h | h
        · exact h ▸ ham
        · exact hall i h
    · have hb' : better a.2 p.2 = false := by
        cases h : better a.2 p.2 with
        | true => exact absurd h hb
        | false => rfl
      have hsel : selStep better (some p) a = some p := by simp [selStep, hb']
      rw [hsel]
      obtain ⟨m, hm, hmem, hpm, hall⟩ := ih p
      refine ⟨m, hm, ?_, hpm, ?_⟩
      · rcases hmem with h | h
        · exact Or.inl h
        · exact Or.inr (List.mem_cons_of_mem a h)
      · intro i hi
        rcases List.mem_cons.mp hi with h | h
        · exact h ▸ htrans _ _ _ (hF _ _ hb') hpm
        · exact hall i h

/-- The placeholder scan over a non-empty list finds an element of the list
that `R`-dominates every element. -/
lemma foldl_selStep_of_ne_nil (better : Nat → Nat → Bool) (R : Nat → Nat → Prop)
    (htrans : ∀ x y z, R x y → R y z → R x z)
    (hT : ∀ x y, better x y = true → R y x)
    (hF : ∀ x y, better x y = false → R x y)
    (l : List (α × Nat)) (h : l ≠ []) :
    ∃ m, l.foldl (selStep better) none = some m ∧ m ∈ l ∧ ∀ i ∈ l, R i.2 m.2 := by
  cases l with
  | nil => exact absurd rfl h
  | cons a l =>
    rw [List.foldl_cons]
    have hsel : selStep better none a = some a := rfl
    rw [hsel]
    obtain ⟨m, hm, hmem, ham, hall⟩ :=
      foldl_selStep_from_some better R htrans hT hF l a
    refine ⟨m, hm, ?_, ?_⟩
    · rcases hmem with hh | hh
      · exact hh ▸ List.mem_cons_self a l
      · exact List.mem_cons_of_mem a hh
    · intro i hi
      rcases List.mem_cons.mp hi with hh | hh
      · exact hh ▸ ham
      · exact hall i hh

/-- On a non-empty graph, `get_most_popular` returns the set of nodes whose
degree is maximal. -/
lemma get_most_popular_spec (g : Graph α) (h : g.nodes ≠ []) :
    ∃ M, g.get_most_popular = Except.ok M ∧ M.Nonempty ∧
      ∀ p, p ∈ M ↔ p ∈ g.nodes ∧ ∀ q ∈ g.nodes, g.degree q ≤ g.degree p := by
  have hdl : g.degreeList ≠ [] := by
    simp [Graph.degreeList]
    exact h
  obtain ⟨m, hm, hmem, hall⟩ :=
    foldl_selStep_of_ne_nil (fun a b => decide (a > b)) (fun x y => x ≤ y)
      (fun x y z h1 h2 => le_trans h1 h2)
      (fun x y hb => le_of_lt (of_decide_eq_true hb))
      (fun x y hb => le_of_not_lt (of_decide_eq_false hb))
      g.degreeList hdl
  have hm1 : m.1 ∈ g.nodes ∧ m.2 = g.degree m.1 := mem_degreeList.mp hmem
  have hmax : ∀ q ∈ g.nodes, g.degree q ≤ m.2 := by
    intro q hq
    exact hall (q, g.degree q) (mem_degreeList.mpr ⟨hq, rfl⟩)
  have hres : g.get_most_popular = Except.ok (insert m.1
      (((g.degreeList.filter (fun i => decide (i.2 = m.2))).map Prod.fst).toFinset)) := by
    rw [Graph.get_most_popular, hm]
  refine ⟨_, hres, Finset.insert_nonempty _ _, ?_⟩
  · intro p
    rw [Finset.mem_insert, List.mem_toFinset, List.mem_map]
    constructor
    · rintro (rfl | ⟨i, hi, rfl⟩)
      · exact ⟨hm1.1, fun q hq => hm1.2 ▸ hmax q hq⟩
      · have hi2 := List.mem_filter.mp hi
        have heq : i.2 = m.2 := of_decide_eq_true hi2.2
        have hin := mem_degreeList.mp hi2.1
        exact ⟨hin.1, fun q hq => (hin.2 ▸ heq) ▸ hmax q hq⟩
    · rintro ⟨hp, hge⟩
      have h1 : g.degree p ≤ m.2 := hmax p hp
      have h2 : m.2 ≤ g.degree p := hm1.2 ▸ hge m.1 hm1.1
      refine Or.inr ⟨(p, g.degree p), List.mem_filter.mpr ⟨mem_degreeList.mpr ⟨hp, rfl⟩, ?_⟩, rfl⟩
      exact decide_eq_true (le_antisymm h1 h2)

/-- On a non-empty graph, `get_least_popular` returns the set of nodes whose
degree is minimal. -/
lemma get_least_popular_spec (g : Graph α) (h : g.nodes ≠ []) :
    ∃ L, g.get_least_popular = Except.ok L ∧ L.Nonempty ∧
      ∀ p, p ∈ L ↔ p ∈ g.nodes ∧ ∀ q ∈ g.nodes, g.degree p ≤ g.degree q := by
  have hdl : g.degreeList ≠ [] := by
    simp [Graph.degreeList]
    exact h
  obtain ⟨m, hm, hmem, hall⟩ :=
    foldl_selStep_of_ne_nil (fun a b => decide (a < b)) (fun x y => y ≤ x)
      (fun x y z h1 h2 => le_trans h2 h1)
      (fun x y hb => le_of_lt (of_decide_eq_true hb))
      (fun x y hb => le_of_not_lt (of_decide_eq_false hb))
      g.degreeList hdl
  have hm1 : m.1 ∈ g.nodes ∧ m.2 = g.degree m.1 := mem_degreeList.mp hmem
  have hmin : ∀ q ∈ g.nodes, m.2 ≤ g.degree q := by
    intro q hq
    exact hall (q, g.degree q) (mem_degreeList.mpr ⟨hq, rfl⟩)
  have hres : g.get_least_popular = Except.ok (insert m.1
      (((g.degreeList.filter (fun i => decide (i.2 = m.2))).map Prod.fst).toFinset)) := by
    rw [Graph.get_least_popular, hm]
  refine ⟨_, hres, Finset.insert_nonempty _ _, ?_⟩
  · intro p
    rw [Finset.mem_insert, List.mem_toFinset, List.mem_map]
    constructor
    · rintro (rfl | ⟨i, hi, rfl⟩)
      · exact ⟨hm1.1, fun q hq => hm1.2 ▸ hmin q hq⟩
      · have hi2 := List.mem_filter.mp hi
        have heq : i.2 = m.2 := of_decide_eq_true hi2.2
        have hin := mem_degreeList.mp hi2.1
        exact ⟨hin.1, fun q hq => (hin.2 ▸ heq) ▸ hmin q hq⟩
    · rintro ⟨hp, hle⟩
      have h1 : m.2 ≤ g.degree p := hmin p hp
      have h2 : g.degree p ≤ m.2 := hm1.2 ▸ hle m.1 hm1.1
      refine Or.inr ⟨(p, g.degree p), List.mem_filter.mpr ⟨mem_degreeList.mpr ⟨hp, rfl⟩, ?_⟩, rfl⟩
      exact decide_eq_true (le_antisymm h2 h1)

/-- A connection emitted by the inner scan has the scanning person first and
a distinct candidate second. -/
lemma scan_partners_emits (i : α) :
    ∀ (l : List α) (coins : Nat → Bool) (k : Nat) (c : α × α) (kNext : Nat),
      scan_partners i l coins k = (some c, kNext) → c.1 = i ∧ c.2 ∈ l ∧ c.1 ≠ c.2 := by
  intro l
  induction l with
  | nil =>
    intro coins k c kNext hc
    simp [scan_partners] at hc
  | cons j js ih =>
    intro coins k c kNext hc
    rw [scan_partners] at hc
    by_cases hij : i = j
    · rw [if_pos hij] at hc
      obtain ⟨h1, h2, h3⟩ := ih coins k c kNext hc
      exact ⟨h1, List.mem_cons_of_mem j h2, h3⟩
    · rw [if_neg hij] at hc
      by_cases hcoin : coins k = true
      · rw [if_pos hcoin] at hc
        obtain ⟨hc1, hc2⟩ := Prod.mk.injEq .. ▸ hc
        cases hc1
        exact ⟨rfl, List.mem_cons_self j js, hij⟩
      · rw [if_neg hcoin] at hc
        obtain ⟨h1, h2, h3⟩ := ih coins (k + 1) c kNext hc
        exact ⟨h1, List.mem_cons_of_mem j h2, h3⟩

/-- The outer loop emits at most one connection per list entry. -/
lemma create_connections_random_from_length :
    ∀ (people all : List α) (coins : Nat → Bool) (k : Nat),
      (create_connections_random_from people all coins k).length ≤ people.length := by
  intro people
  induction people with
  | nil => intro all coins k; simp [create_connections_random_from]
  | cons i rest ih =>
    intro all coins k
    rw [create_connections_random_from]
    cases hscan : scan_partners i all coins k with
    | mk oc kNext =>
      cases oc with
      | none =>
        simp only []
        exact le_trans (ih all coins kNext) (Nat.le_succ _)
      | some c =>
        simp only [List.length_cons]
        exact Nat.succ_le_succ (ih all coins kNext)

/-- Each person initiates at most as many connections as they occur in the
scanned people list. -/
lemma create_connections_random_from_countP :
    ∀ (people all : List α) (coins : Nat → Bool) (k : Nat) (p : α),
      ((create_connections_random_from people all coins k).countP
        (fun c => decide (c.1 = p))) ≤ people.count p := by
  intro people
  induction people with
  | nil => intro all coins k p; simp [create_connections_random_from]
  | cons i rest ih =>
    intro all coins k p
    rw [create_connections_random_from]
    cases hscan : scan_partners i all coins k with
    | mk oc kNext =>
      cases oc with
      | none =>
        refine le_trans (ih all coins kNext p) ?_
        rw [List.count_cons]
        exact Nat.le_add_right _ _
      | some c =>
        have hc1 : c.1 = i := (scan_partners_emits i all coins k c kNext hscan).1
        rw [List.countP_cons, List.count_cons]
        by_cases hip : i = p
        · have : decide (c.1 = p) = true := decide_eq_true (hc1.trans hip)
          rw [this]
          simp only [if_pos]
          have hbeq : (i == p) = true := beq_iff_eq .. |>.mpr hip
          rw [hbeq]
          simp only [if_pos]
          exact Nat.add_le_add_right (ih all coins kNext p) 1
        · have : decide (c.1 = p) = false := decide_eq_false (fun hh => hip (hc1 ▸ hh))
          rw [this]
          simp only [if_neg, Bool.false_eq_true, if_false, Nat.add_zero]
          refine le_trans (ih all coins kNext p) ?_
          exact Nat.le_add_right _ _

/-- Characterisation of neighbourhood membership: `q` neighbours `p` exactly
when some stored edge joins them, in either orientation. -/
lemma mem_nbrs {g : Graph α} {p q : α} :
    q ∈ g.nbrs p ↔ ∃ e ∈ g.edges, e = (p, q) ∨ e = (q, p) := by
  rw [Graph.nbrs, List.mem_toFinset, List.mem_filterMap]
  constructor
  · rintro ⟨e, he, hq⟩
    by_cases h1 : e.1 = p
    · rw [if_pos h1] at hq
      cases hq
      exact ⟨e, he, Or.inl (Prod.ext_iff.mpr ⟨h1, rfl⟩)⟩
    · rw [if_neg h1] at hq
      by_cases h2 : e.2 = p
      · rw [if_pos h2] at hq
        cases hq
        exact ⟨e, he, Or.inr (Prod.ext_iff.mpr ⟨rfl, h2⟩)⟩
      · rw [if_neg h2] at hq
        cases hq
  · rintro ⟨e, he, rfl | rfl⟩
    · exact ⟨(p, q), he, by simp⟩
    · refine ⟨(q, p), he, ?_⟩
      by_cases h1 : q = p
      · cases h1
        simp
      · simp [h1]

/-- Neighbourhood is symmetric: the stored edges are undirected. -/
lemma mem_nbrs_comm {g : Graph α} {p q : α} : q ∈ g.nbrs p ↔ p ∈ g.nbrs q := by
  rw [mem_nbrs, mem_nbrs]
  constructor
  · rintro ⟨e, he, h | h⟩
    · exact ⟨e, he, Or.inr h⟩
    · exact ⟨e, he, Or.inl h⟩
  · rintro ⟨e, he, h | h⟩
    · exact ⟨e, he, Or.inr h⟩
    · exact ⟨e, he, Or.inl h⟩

/-- A walk of exactly `n` edge steps between two vertices. -/
def walkN (g : Graph α) : Nat → α → α → Prop
  | 0, s, t => s = t
  | n + 1, s, t => ∃ m, walkN g n s m ∧ t ∈ g.nbrs m

/-- A walk of `n + 1` steps can also be split at its first step. -/
lemma walkN_succ_iff (g : Graph α) :
    ∀ (n : Nat) (s t : α), walkN g (n + 1) s t ↔ ∃ m ∈ g.nbrs s, walkN g n m t := by
  intro n
  induction n with
  | zero =>
    intro s t
    constructor
    · rintro ⟨m, hm, ht⟩
      cases hm
      exact ⟨t, ht, rfl⟩
    · rintro ⟨m, hm, ht⟩
      cases ht
      exact ⟨s, rfl, hm⟩
  | succ n ih =>
    intro s t
    constructor
    · rintro ⟨m, hm, ht⟩
      obtain ⟨u, hu, hw⟩ := (ih s m).mp hm
      exact ⟨u, hu, m, hw, ht⟩
    · rintro ⟨m, hm, u, hw, ht⟩
      exact ⟨u, (ih s u).mpr ⟨m, hm, hw⟩, ht⟩

/-- Walks reverse: the edge relation is undirected. -/
lemma walkN_symm (g : Graph α) :
    ∀ (n : Nat) (s t : α), walkN g n s t → walkN g n t s := by
  intro n
  induction n with
  | zero =>
    intro s t h
    exact h.symm
  | succ n ih =>
    rintro s t ⟨m, hm, ht⟩
    exact (walkN_succ_iff g n t s).mpr ⟨m, mem_nbrs_comm.mp ht, ih s m hm⟩

/-- The breadth-first ball contains exactly the endpoints of walks of at
most `n` steps. -/
lemma mem_ball_iff (g : Graph α) (s : α) :
    ∀ (n : Nat) (t : α), t ∈ g.ball s n ↔ ∃ k, k ≤ n ∧ walkN g k s t := by
  intro n
  induction n with
  | zero =>
    intro t
    rw [Graph.ball]
    simp only [Finset.mem_singleton]
    constructor
    · rintro rfl
      exact ⟨0, le_refl 0, rfl⟩
    · rintro ⟨k, hk, hw⟩
      cases Nat.le_zero.mp hk
      exact hw.symm
  | succ n ih =>
    intro t
    rw [Graph.ball]
    rw [Finset.mem_union]
    constructor
    · rintro (h | h)
      · obtain ⟨k, hk, hw⟩ := (ih t).mp h
        exact ⟨k, le_trans hk (Nat.le_succ n), hw⟩
      · obtain ⟨p, hp, ht⟩ := Finset.mem_biUnion.mp h
        obtain ⟨k, hk, hw⟩ := (ih p).mp hp
        refine ⟨k + 1, Nat.succ_le_succ hk, p, hw, ht⟩
    · rintro ⟨k, hk, hw⟩
      rcases Nat.lt_or_ge k (n + 1) with hlt | hge
      · exact Or.inl ((ih t).mpr ⟨k, Nat.lt_succ_iff.mp hlt, hw⟩)
      · have hkeq : k = n + 1 := le_antisymm hk hge
        cases hkeq
        obtain ⟨m, hm, ht⟩ := hw
        exact Or.inr (Finset.mem_biUnion.mpr ⟨m, (ih m).mpr ⟨n, le_refl n, hm⟩, ht⟩)

/-- Ball membership is symmetric in source and target. -/
lemma mem_ball_comm (g : Graph α) (s t : α) (n : Nat) :
    t ∈ g.ball s n ↔ s ∈ g.ball t n := by
  rw [mem_ball_iff g s n t, mem_ball_iff g t n s]
  constructor
  · rintro ⟨k, hk, hw⟩
    exact ⟨k, hk, walkN_symm g k s t hw⟩
  · rintro ⟨k, hk, hw⟩
    exact ⟨k, hk, walkN_symm g k t s hw⟩

/-- `find?` only depends on the pointwise behaviour of its predicate. -/
lemma find?_congr_pointwise {β : Type} (p q : β → Bool) (h : ∀ a, p a = q a) :
    ∀ l : List β, l.find? p = l.find? q := by
  intro l
  induction l with
  | nil => rfl
  | cons a l ih =>
    rw [List.find?_cons, List.find?_cons, h a]
    cases q a with
    | true => rfl
    | false => exact ih

/-- Shortest-path distance is symmetric. -/
lemma Graph.dist_comm (g : Graph α) (s t : α) : g.dist s t = g.dist t s := by
  rw [Graph.dist, Graph.dist]
  exact find?_congr_pointwise _ _
    (fun n => decide_eq_decide.mpr (mem_ball_comm g s t n)) _

/-- The distance from a vertex to itself is zero. -/
lemma Graph.dist_self (g : Graph α) (s : α) : g.dist s s = some 0 := by
  rw [Graph.dist, List.range_succ_eq_map, List.find?_cons]
  have h0 : decide (s ∈ g.ball s 0) = true := by
    rw [Graph.ball]
    simp
  rw [h0]

/-- The only vertex at distance zero from `p` is `p` itself. -/
lemma Graph.dist_eq_zero_iff (g : Graph α) (p q : α) :
    g.dist p q = some 0 ↔ q = p := by
  constructor
  · intro h
    have hsat := List.find?_some h
    have : q ∈ g.ball p 0 := of_decide_eq_true hsat
    rw [Graph.ball] at this
    exact Finset.mem_singleton.mp this
  · rintro rfl
    exact Graph.dist_self g q

/-- The random generator never emits a pair whose two components are equal:
the scan skips the candidate equal to the scanning person. -/
lemma create_connections_random_from_no_self :
    ∀ (people all : List α) (coins : Nat → Bool) (k : Nat) (c : α × α),
      c ∈ create_connections_random_from people all coins k → c.1 ≠ c.2 := by
  intro people
  induction people with
  | nil =>
    intro all coins k c hc
    simp [create_connections_random_from] at hc
  | cons i rest ih =>
    intro all coins k c hc
    rw [create_connections_random_from] at hc
    cases hscan : scan_partners i all coins k with
    | mk oc kNext =>
      rw [hscan] at hc
      cases oc with
      | none => exact ih all coins kNext c hc
      | some c0 =>
        rcases List.mem_cons.mp hc with h | h
        · exact h ▸ (scan_partners_emits i all coins k c0 kNext hscan).2.2
        · exact ih all coins kNext c h

/-- With at least one node, `get_average` succeeds under every governor. -/
lemma get_average_ok (g : Graph α) (h : g.degreeList.length ≠ 0) (gov : Option String) :
    ∃ q, g.get_average gov = Except.ok q := by
  unfold Graph.get_average
  rw [if_neg h]
  by_cases h1 : gov = some govFloor
  · rw [if_pos h1]
    exact ⟨_, rfl⟩
  · rw [if_neg h1]
    by_cases h2 : gov = some govCeiling
    · rw [if_pos h2]
      exact ⟨_, rfl⟩
    · rw [if_neg h2]
      by_cases h3 : gov = some govCast
      · rw [if_pos h3]
        exact ⟨_, rfl⟩
      · rw [if_neg h3]
        exact ⟨_, rfl⟩

/-- C1: on people `["A", "B", "C"]` with connections
`[("A", "B"), ("B", "C")]` the degrees are 1, 2, 1; `get_friends` maps
`A` to `{B}`, `B` to `{A, C}` and `C` to `{B}`; `get_friends_of_friends`
maps `A` to `{C}`, `B` to the empty set and `C` to `{A}`;
`get_most_popular` returns `{B}`, `get_least_popular` returns `{A, C}`;
`get_average` returns `4/3` with no governor, 1 under `floor` and 2 under
`ceiling`. -/
theorem scenario_path_abc :
    exampleGraph.degree ("A") = 1 ∧ exampleGraph.degree ("B") = 2 ∧
    exampleGraph.degree ("C") = 1 ∧
    exampleGraph.get_friends = [("A", {"B"}), ("B", {"A", "C"}), ("C", {"B"})] ∧
    exampleGraph.get_friends_of_friends = [("A", {"C"}), ("B", ∅), ("C", {"A"})] ∧
    exampleGraph.get_most_popular = Except.ok {"B"} ∧
    exampleGraph.get_least_popular = Except.ok {"A", "C"} ∧
    exampleGraph.get_average none = Except.ok ((4 : ℚ) / 3) ∧
    exampleGraph.get_average (some govFloor) = Except.ok 1 ∧
    exampleGraph.get_average (some govCeiling) = Except.ok 2 := by
  have hsum : (exampleGraph.degreeList.map Prod.snd).sum = 4 := by decide
  have hlen : exampleGraph.degreeList.length = 3 := by decide
  refine ⟨by decide, by decide, by decide, by decide, by decide, by decide, by decide,
    ?_, ?_, ?_⟩
  · simp [Graph.get_average, hsum, hlen]
  · simp [Graph.get_average, hsum, hlen, govFloor, govCeiling, govCast]
    rw [show ⌊(4 : ℚ) / 3⌋ = 1 by rw [Int.floor_eq_iff] <;> norm_num] <;> norm_num
  · simp [Graph.get_average, hsum, hlen, govFloor, govCeiling, govCast]
    rw [show ⌈(4 : ℚ) / 3⌉ = 2 by rw [Int.ceil_eq_iff] <;> norm_num] <;> norm_num

/-- C2 counterexample: a supplied self pair is stored as a self-loop edge —
`populate_graph` does not filter it, and the node's degree counts it twice
as networkx does. -/
theorem self_loop_edge_added :
    (("A", "A") ∈ (populate_graph ["A"] [("A", "A")]).edges) ∧
    (populate_graph ["A"] [("A", "A")]).degree ("A") = 2 :=
  ⟨by decide, by decide⟩

/-- C2 amended: the two connection generators never emit a pair whose two
elements are the same person, but construction itself does not filter: the
stored edge list is exactly the supplied connection list, so a supplied
self pair becomes a self-loop edge. -/
theorem construction_keeps_edges_generators_no_self
    (people : List α) (conns : List (α × α)) (coins : Nat → Bool) :
    (populate_graph people conns).edges = conns ∧
    (∀ c ∈ create_connections_full people, c.1 ≠ c.2) ∧
    (∀ c ∈ create_connections_random people coins, c.1 ≠ c.2) := by
  refine ⟨rfl, ?_, ?_⟩
  · intro c hc
    obtain ⟨i, hi, hc2⟩ := List.mem_flatMap.mp hc
    obtain ⟨j, hj, hEq⟩ := List.mem_map.mp hc2
    have hne : ¬ i = j := of_decide_eq_true (List.mem_filter.mp hj).2
    cases hEq
    exact hne
  · intro c hc
    exact create_connections_random_from_no_self people people coins 0 c hc

/-- C2 amended witness: instances of the three conjuncts at concrete
inputs. -/
theorem construction_keeps_edges_generators_no_self_witness :
    (populate_graph (["A", "B"] : List String) [("A", "B")]).edges = [("A", "B")] ∧
    (("A", "B") : String × String).1 ≠ ("A", "B").2 ∧
    (("B", "A") : String × String).1 ≠ ("B", "A").2 :=
  ⟨(construction_keeps_edges_generators_no_self (["A", "B"] : List String)
      [("A", "B")] (fun _ => true)).1,
   (construction_keeps_edges_generators_no_self (["A", "B"] : List String)
      [("A", "B")] (fun _ => true)).2.1 ("A", "B") (by decide),
   (construction_keeps_edges_generators_no_self (["A", "B"] : List String)
      [("A", "B")] (fun _ => true)).2.2 ("B", "A") (by decide)⟩

/-- C3: evaluated on a graph where no node has degree above 4 (one isolated
person), `get_more_than_four` returns the sentinel string, not an empty
set. -/
theorem more_than_four_sentinel_on_no_match :
    (populate_graph ["A"] ([] : List (String × String))).get_more_than_four =
      Sum.inr noOneMsg ∧
    (populate_graph ["A"] ([] : List (String × String))).get_more_than_four ≠
      Sum.inl (∅ : Finset String) :=
  ⟨by decide, by decide⟩

/-- C4 counterexample: on the zero-node graph the three queries do fail,
but none of them fails with the spec's `EmptyGraphError` — the source never
defines that error; the actual outcomes are `TypeError` and
`ZeroDivisionError`. -/
theorem empty_graph_failure_counterexample :
    (populate_graph ([] : List String) []).get_most_popular ≠
      Except.error PyError.emptyGraphError ∧
    (populate_graph ([] : List String) []).get_least_popular ≠
      Except.error PyError.emptyGraphError ∧
    (populate_graph ([] : List String) []).get_average none ≠
      Except.error PyError.emptyGraphError ∧
    (populate_graph ([] : List String) []).get_most_popular =
      Except.error PyError.typeError ∧
    (populate_graph ([] : List String) []).get_average none =
      Except.error PyError.zeroDivisionError :=
  ⟨by decide, by decide, by decide, by decide, by decide⟩

/-- C4 amended: on a graph with zero nodes `get_most_popular` and
`get_least_popular` fail with `TypeError` (subscripting the `None`
placeholder) and `get_average` fails with `ZeroDivisionError`, under every
governor; these are the only inputs on which these operations fail. -/
theorem empty_graph_failure_characterization (g : Graph α) (gov : Option String) :
    (g.nodes = [] →
      g.get_most_popular = Except.error PyError.typeError ∧
      g.get_least_popular = Except.error PyError.typeError ∧
      g.get_average gov = Except.error PyError.zeroDivisionError) ∧
    (g.nodes ≠ [] →
      (∃ M, g.get_most_popular = Except.ok M) ∧
      (∃ L, g.get_least_popular = Except.ok L) ∧
      (∃ q, g.get_average gov = Except.ok q)) := by
  constructor
  · intro h
    have hdl : g.degreeList = [] := by rw [Graph.degreeList, h]; rfl
    refine ⟨?_, ?_, ?_⟩
    · rw [Graph.get_most_popular, hdl]
      rfl
    · rw [Graph.get_least_popular, hdl]
      rfl
    · unfold Graph.get_average
      rw [hdl]
      rfl
  · intro h
    have hdl : g.degreeList.length ≠ 0 := by
      rw [Graph.degreeList, List.length_map]
      intro hh
      exact h (List.length_eq_zero.mp hh)
    refine ⟨?_, ?_, get_average_ok g hdl gov⟩
    · obtain ⟨M, hM, -, -⟩ := get_most_popular_spec g h
      exact ⟨M, hM⟩
    · obtain ⟨L, hL, -, -⟩ := get_least_popular_spec g h
      exact ⟨L, hL⟩

/-- C4 amended witness: the failing side at the zero-node graph and the
succeeding side at the three-person scenario graph. -/
theorem empty_graph_failure_characterization_witness :
    ((populate_graph ([] : List String) []).get_most_popular =
        Except.error PyError.typeError ∧
      (populate_graph ([] : List String) []).get_least_popular =
        Except.error PyError.typeError ∧
      (populate_graph ([] : List String) []).get_average none =
        Except.error PyError.zeroDivisionError) ∧
    ((∃ M, exampleGraph.get_most_popular = Except.ok M) ∧
      (∃ L, exampleGraph.get_least_popular = Except.ok L) ∧
      (∃ q, exampleGraph.get_average none = Except.ok q)) :=
  ⟨(empty_graph_failure_characterization (populate_graph ([] : List String) []) none).1
      (by decide),
   (empty_graph_failure_characterization exampleGraph none).2 (by decide)⟩

/-- C5: for every ordered people list and every outcome of the coin stream,
the random generator emits at most one connection per list entry — so at
most `N` connections for `N` people — and when the people are distinct each
person initiates (appears as first component of) at most one connection. -/
theorem random_connections_bounds (people : List α) (coins : Nat → Bool) :
    (create_connections_random people coins).length ≤ people.length ∧
    (people.Nodup → ∀ p : α,
      ((create_connections_random people coins).countP
        (fun c => decide (c.1 = p))) ≤ 1) := by
  constructor
  · exact create_connections_random_from_length people people coins 0
  · intro hnd p
    refine le_trans (create_connections_random_from_countP people people coins 0 p) ?_
    exact List.nodup_iff_count_le_one.mp hnd p

/-- C5 witness: both bounds at a concrete people list and an all-successes
coin stream. -/
theorem random_connections_bounds_witness :
    (create_connections_random (["A", "B"] : List String) (fun _ => true)).length ≤
      (["A", "B"] : List String).length ∧
    ((create_connections_random (["A", "B"] : List String) (fun _ => true)).countP
      (fun c => decide (c.1 = ("A" : String)))) ≤ 1 :=
  ⟨(random_connections_bounds (["A", "B"] : List String) (fun _ => true)).1,
   (random_connections_bounds (["A", "B"] : List String) (fun _ => true)).2
      (by decide) ("A")⟩

/-- C6: on every non-empty graph, `get_most_popular` returns exactly the
non-empty set of nodes of maximal degree and `get_least_popular` exactly the
non-empty set of nodes of minimal degree, so every most-popular person has
degree at least that of every least-popular person. -/
theorem most_least_popular_extremal (g : Graph α) (h : g.nodes ≠ []) :
    ∃ M L, g.get_most_popular = Except.ok M ∧ g.get_least_popular = Except.ok L ∧
      M.Nonempty ∧ L.Nonempty ∧
      (∀ p, p ∈ M ↔ p ∈ g.nodes ∧ ∀ q ∈ g.nodes, g.degree q ≤ g.degree p) ∧
      (∀ p, p ∈ L ↔ p ∈ g.nodes ∧ ∀ q ∈ g.nodes, g.degree p ≤ g.degree q) ∧
      (∀ p ∈ M, ∀ q ∈ L, g.degree q ≤ g.degree p) := by
  obtain ⟨M, hM, hMne, hMch⟩ := get_most_popular_spec g h
  obtain ⟨L, hL, hLne, hLch⟩ := get_least_popular_spec g h
  refine ⟨M, L, hM, hL, hMne, hLne, hMch, hLch, ?_⟩
  intro p hp q hq
  exact ((hMch p).mp hp).2 q ((hLch q).mp hq).1

/-- C6 witness: the characterisation at the three-person scenario graph. -/
theorem most_least_popular_extremal_witness :
    ∃ M L, exampleGraph.get_most_popular = Except.ok M ∧
      exampleGraph.get_least_popular = Except.ok L ∧
      M.Nonempty ∧ L.Nonempty ∧
      (∀ p, p ∈ M ↔ p ∈ exampleGraph.nodes ∧
        ∀ q ∈ exampleGraph.nodes, exampleGraph.degree q ≤ exampleGraph.degree p) ∧
      (∀ p, p ∈ L ↔ p ∈ exampleGraph.nodes ∧
        ∀ q ∈ exampleGraph.nodes, exampleGraph.degree p ≤ exampleGraph.degree q) ∧
      (∀ p ∈ M, ∀ q ∈ L, exampleGraph.degree q ≤ exampleGraph.degree p) :=
  most_least_popular_extremal exampleGraph (by decide)

/-- C7: on every non-empty graph the ungoverned average times the node
count equals the sum of all degrees, and the floor-governed average is at
most the ungoverned average, which is at most the ceiling-governed one. -/
theorem average_degree_relations (g : Graph α) (h : g.nodes ≠ []) :
    ∃ a f c : ℚ, g.get_average none = Except.ok a ∧
      g.get_average (some govFloor) = Except.ok f ∧
      g.get_average (some govCeiling) = Except.ok c ∧
      a * (g.nodes.length : ℚ) = ((g.degreeList.map Prod.snd).sum : ℚ) ∧
      f ≤ a ∧ a ≤ c := by
  have hlen : g.degreeList.length = g.nodes.length := by
    rw [Graph.degreeList, List.length_map]
  have hn0 : g.nodes.length ≠ 0 := fun hh => h (List.length_eq_zero.mp hh)
  have hc0 : g.degreeList.length ≠ 0 := by rw [hlen]; exact hn0
  have hcast : ((g.degreeList.length : ℚ)) = ((g.nodes.length : ℚ)) := by
    rw [hlen]
  have hqne : ((g.nodes.length : ℚ)) ≠ 0 := Nat.cast_ne_zero.mpr hn0
  refine ⟨((g.degreeList.map Prod.snd).sum : ℚ) / (g.degreeList.length : ℚ),
    ((⌊((g.degreeList.map Prod.snd).sum : ℚ) / (g.degreeList.length : ℚ)⌋ : ℤ) : ℚ),
    ((⌈((g.degreeList.map Prod.snd).sum : ℚ) / (g.degreeList.length : ℚ)⌉ : ℤ) : ℚ),
    ?_, ?_, ?_, ?_, Int.floor_le _, Int.le_ceil _⟩
  · unfold Graph.get_average
    rw [if_neg hc0]
    simp
  · unfold Graph.get_average
    rw [if_neg hc0, if_pos rfl]
  · unfold Graph.get_average
    rw [if_neg hc0, if_neg (by decide : ¬ (some govCeiling = some govFloor)), if_pos rfl]
  · rw [hcast]
    exact div_mul_cancel₀ _ hqne

/-- C7 witness: the relations at the three-person scenario graph. -/
theorem average_degree_relations_witness :
    ∃ a f c : ℚ, exampleGraph.get_average none = Except.ok a ∧
      exampleGraph.get_average (some govFloor) = Except.ok f ∧
      exampleGraph.get_average (some govCeiling) = Except.ok c ∧
      a * (exampleGraph.nodes.length : ℚ) =
        ((exampleGraph.degreeList.map Prod.snd).sum : ℚ) ∧
      f ≤ a ∧ a ≤ c :=
  average_degree_relations exampleGraph (by decide)

/-- C8: the keys of `get_friends` are exactly the node list of the graph
(isolated nodes included, mapped to sets that may be empty), and no node is
a member of its own friends set — its self-distance is 0, not 1. -/
theorem friends_keys_and_no_self (g : Graph α) :
    g.get_friends.map Prod.fst = g.nodes ∧
    ∀ p S, (p, S) ∈ g.get_friends → p ∉ S := by
  constructor
  · rw [Graph.get_friends, Graph.get_adjacency_with_separation_degree, List.map_map]
    exact (List.map_congr_left (fun a _ => rfl)).trans (List.map_id g.nodes)
  · intro p S hmem hp
    rw [Graph.get_friends, Graph.get_adjacency_with_separation_degree] at hmem
    obtain ⟨q, hq, hEq⟩ := List.mem_map.mp hmem
    injection hEq with h1 h2
    subst h1
    subst h2
    rw [List.mem_toFinset, List.mem_filter] at hp
    have hd : g.dist q q = some 1 := of_decide_eq_true hp.2
    rw [Graph.dist_self] at hd
    exact Option.noConfusion hd (fun h => Nat.noConfusion h)

/-- C8 witness: at the scenario graph, `A` is a key mapped to `{B}` and is
not its own friend. -/
theorem friends_keys_and_no_self_witness :
    exampleGraph.get_friends.map Prod.fst = exampleGraph.nodes ∧
    ("A" : String) ∉ ({"B"} : Finset String) :=
  ⟨(friends_keys_and_no_self exampleGraph).1,
   (friends_keys_and_no_self exampleGraph).2 ("A") ({"B"}) (by decide)⟩

/-- C9: at separation degree 0 the adjacency query maps every node to
exactly the singleton set containing that node itself. -/
theorem adjacency_at_zero_is_self (g : Graph α) :
    g.get_adjacency_with_separation_degree 0 =
      g.nodes.map (fun p => (p, ({p} : Finset α))) := by
  rw [Graph.get_adjacency_with_separation_degree]
  apply List.map_congr_left
  intro p hp
  have hset : (g.nodes.filter (fun q => decide (g.dist p q = some 0))).toFinset =
      ({p} : Finset α) := by
    apply Finset.ext
    intro q
    rw [List.mem_toFinset, List.mem_filter, Finset.mem_singleton]
    constructor
    · rintro ⟨-, hd⟩
      exact (Graph.dist_eq_zero_iff g p q).mp (of_decide_eq_true hd)
    · rintro rfl
      exact ⟨hp, decide_eq_true (Graph.dist_self g q)⟩
  rw [hset]

/-- C10: the adjacency-by-separation relation is symmetric — for any two
keys of the result, each belongs to the other's set or neither does,
because shortest-path distance in the undirected graph is symmetric. -/
theorem adjacency_separation_symmetric (g : Graph α) (d : Nat) (p q : α)
    (S T : Finset α)
    (hS : (p, S) ∈ g.get_adjacency_with_separation_degree d)
    (hT : (q, T) ∈ g.get_adjacency_with_separation_degree d) :
    q ∈ S ↔ p ∈ T := by
  rw [Graph.get_adjacency_with_separation_degree] at hS hT
  obtain ⟨a, ha, hEqa⟩ := List.mem_map.mp hS
  injection hEqa with ha1 ha2
  subst ha1
  subst ha2
  obtain ⟨b, hb, hEqb⟩ := List.mem_map.mp hT
  injection hEqb with hb1 hb2
  subst hb1
  subst hb2
  rw [List.mem_toFinset, List.mem_toFinset, List.mem_filter, List.mem_filter]
  constructor
  · rintro ⟨-, hd⟩
    refine ⟨ha, decide_eq_true ?_⟩
    rw [Graph.dist_comm]
    exact of_decide_eq_true hd
  · rintro ⟨-, hd⟩
    refine ⟨hb, decide_eq_true ?_⟩
    rw [Graph.dist_comm]
    exact of_decide_eq_true hd

/-- C10 witness: at the scenario graph with separation 1, `B` is in `A`'s
set exactly when `A` is in `B`'s set. -/
theorem adjacency_separation_symmetric_witness :
    (("B" : String) ∈ ({"B"} : Finset String)) ↔
      (("A" : String) ∈ ({"A", "C"} : Finset String)) :=
  adjacency_separation_symmetric exampleGraph 1 ("A") ("B") ({"B"}) ({"A", "C"})
    (by decide) (by decide)
